import Mathlib

/-!
Verification development for the cruise-tracker backend.

The Python sources `src/backend/worker.py` and `src/backend/voyage_utils.py`
are shallowly embedded below.  Modelling conventions:

* Python floats are modelled as exact rationals (`ℚ`).
* ISO timestamp strings are modelled by `CT.TS`: a timestamp either parses to
  an integer number of epoch seconds (`TS.good`) or fails to parse (`TS.bad`),
  mirroring `datetime.fromisoformat` succeeding or raising.
* The transcendental float geometry (`haversine_km`, `bearing_deg`) is kept
  abstract as a `CT.Geo` parameter: a pair of functions producing the
  great-circle distance in km and the initial bearing in degrees.  All logic
  downstream of those two functions is translated exactly from the source.
* Python dict falsiness (`if not mmsi`, `if not raw_name`, empty dict) is
  modelled explicitly (`Option`, `= 0`, `= ""` tests).
* `round(x, n)` / `round(x)` use banker's rounding, modelled by `CT.roundHE`.
-/

namespace CT

/-- A stored timestamp string: either parses to epoch seconds or is malformed. -/
inductive TS where
  | good (sec : ℤ)
  | bad
deriving DecidableEq

/-- Model of `datetime.fromisoformat`: `none` when parsing raises. -/
def TS.parse : TS → Option ℤ
  | .good s => some s
  | .bad => none

/-- Abstract geometry: `hav lat1 lon1 lat2 lon2` models `haversine_km`
(great-circle km) and `brg lat1 lon1 lat2 lon2` models `bearing_deg`
(initial bearing in degrees).  The float trigonometry of the source is not
re-derived; every claim below is either universal in the geometry or
instantiates it with the concrete distances/bearings the claim prescribes. -/
structure Geo where
  hav : ℚ → ℚ → ℚ → ℚ → ℚ
  brg : ℚ → ℚ → ℚ → ℚ → ℚ

/-- Python's round-half-even (`round(x)`) on an exact rational. -/
def roundHE (x : ℚ) : ℤ :=
  if x - ⌊x⌋ = 1 / 2 then (if ⌊x⌋ % 2 = 0 then ⌊x⌋ else ⌊x⌋ + 1) else round x

/-- Python's `round(x, n)` on an exact rational. -/
def roundTo (n : ℕ) (x : ℚ) : ℚ :=
  (roundHE (x * 10 ^ n) : ℚ) / 10 ^ n

/-- Python's float `%` for a positive modulus: result in `[0, b)`. -/
def qmod (a b : ℚ) : ℚ := a - b * ⌊a / b⌋

/-! ## worker.py constants (lines 16-21) -/

def NEW_TRIP_GAP_HOURS : ℚ := 6
def NEW_TRIP_JUMP_KM : ℚ := 150
def MIN_POINT_DISTANCE_M : ℚ := 200
def MIN_POINT_TIME_SEC : ℚ := 60
def MAX_REASONABLE_SOG : ℚ := 80

/-! ## worker.py fleet table and classification (lines 23-30, 50-54) -/

/-- `LINE_FLEETS` from worker.py lines 23-30 (dict iteration order preserved). -/
def LINE_FLEETS : List (String × List String) :=
  [ ("royal",
     ["ICON OF THE SEAS", "STAR OF THE SEAS", "UTOPIA OF THE SEAS", "WONDER OF THE SEAS",
      "SYMPHONY OF THE SEAS", "HARMONY OF THE SEAS", "OASIS OF THE SEAS", "ALLURE OF THE SEAS",
      "ODYSSEY OF THE SEAS", "SPECTRUM OF THE SEAS", "QUANTUM OF THE SEAS", "OVATION OF THE SEAS",
      "ANTHEM OF THE SEAS", "FREEDOM OF THE SEAS", "LIBERTY OF THE SEAS",
      "INDEPENDENCE OF THE SEAS", "VOYAGER OF THE SEAS", "EXPLORER OF THE SEAS",
      "ADVENTURE OF THE SEAS", "NAVIGATOR OF THE SEAS", "MARINER OF THE SEAS",
      "RADIANCE OF THE SEAS", "BRILLIANCE OF THE SEAS", "JEWEL OF THE SEAS",
      "SERENADE OF THE SEAS", "VISION OF THE SEAS", "GRANDEUR OF THE SEAS",
      "RHAPSODY OF THE SEAS", "ENCHANTMENT OF THE SEAS"]),
    ("carnival",
     ["CARNIVAL BREEZE", "CARNIVAL CELEBRATION", "CARNIVAL DREAM", "CARNIVAL FANTASY",
      "CARNIVAL HORIZON", "CARNIVAL LEGEND", "CARNIVAL MAGIC", "CARNIVAL MIRACLE",
      "CARNIVAL PRIDE", "CARNIVAL SPIRIT", "CARNIVAL SUNSHINE", "CARNIVAL TRIUMPH",
      "CARNIVAL VISTA", "CARNIVAL JUBILEE", "MARDI GRAS", "CARNIVAL PANORAMA",
      "CARNIVAL CONQUEST", "CARNIVAL GLORY", "CARNIVAL VALOR", "CARNIVAL ELATION",
      "CARNIVAL PARADISE", "CARNIVAL RADIANCE", "CARNIVAL FREEDOM", "CARNIVAL SPLENDOR",
      "CARNIVAL LUMINOSA", "CARNIVAL FIRENZE"]),
    ("ncl",
     ["NORWEGIAN BLISS", "NORWEGIAN BREAKAWAY", "NORWEGIAN DAWN", "NORWEGIAN ENCORE",
      "NORWEGIAN ESCAPE", "NORWEGIAN GEM", "NORWEGIAN GETAWAY", "NORWEGIAN JADE",
      "NORWEGIAN JOY", "NORWEGIAN PEARL", "NORWEGIAN PRIMA", "NORWEGIAN SUN",
      "NORWEGIAN SPIRIT", "NORWEGIAN STAR", "NORWEGIAN VIVA", "PRIDE OF AMERICA",
      "NORWEGIAN EPIC"]),
    ("msc",
     ["MSC FANTASIA", "MSC SPLENDIDA", "MSC DIVINA", "MSC PREZIOSA", "MSC SEASIDE",
      "MSC SEAVIEW", "MSC SEASHORE", "MSC SEASCAPE", "MSC GRANDIOSA", "MSC EURIBIA",
      "MSC VIRTUOSA", "MSC WORLD EUROPA", "MSC WORLD AMERICA", "MSC ORCHESTRA",
      "MSC POESIA", "MSC MAGNIFICA", "MSC LIRICA", "MSC MUSICA", "MSC OPERA",
      "MSC ARMONIA", "MSC MERAVIGLIA", "MSC BELLISSIMA"]),
    ("virgin", ["SCARLET LADY", "VALIANT LADY", "RESILIENT LADY", "BRILLIANT LADY"]),
    ("disney",
     ["DISNEY MAGIC", "DISNEY WONDER", "DISNEY DREAM", "DISNEY FANTASY", "DISNEY WISH",
      "DISNEY TREASURE", "DISNEY DESTINY", "DISNEY ADVENTURE"]) ]

/-- `find_line_for_ship` (worker.py lines 50-54): first fleet containing the name. -/
def find_line_for_ship (ship_name : String) : Option String :=
  (LINE_FLEETS.find? (fun lf => lf.2.contains ship_name)).map (·.1)

/-! ## worker.py `normalize_name` (lines 38-40)

`normalize_name` is embedded at the character-list level.  Characters are Lean
`Char`s; Python's `str.upper()` acts as the identity outside the ASCII
lowercase range for the inputs of interest and is modelled by the explicit
ASCII table `pyUpperChar`; `str.split()`/`str.strip()` split/strip on the
Python whitespace set, modelled by `pyIsSpace`. -/

/-- The ASCII whitespace characters recognised by Python's `str.split()`. -/
def pyIsSpace (c : Char) : Bool :=
  c = ' ' || c = '\t' || c = '\n' || c = '\r' || c = '\x0b' || c = '\x0c'

/-- ASCII uppercasing, the effect of Python's `str.upper()` per character. -/
def pyUpperChar (c : Char) : Char :=
  match c with
  | 'a' => 'A' | 'b' => 'B' | 'c' => 'C' | 'd' => 'D' | 'e' => 'E' | 'f' => 'F'
  | 'g' => 'G' | 'h' => 'H' | 'i' => 'I' | 'j' => 'J' | 'k' => 'K' | 'l' => 'L'
  | 'm' => 'M' | 'n' => 'N' | 'o' => 'O' | 'p' => 'P' | 'q' => 'Q' | 'r' => 'R'
  | 's' => 'S' | 't' => 'T' | 'u' => 'U' | 'v' => 'V' | 'w' => 'W' | 'x' => 'X'
  | 'y' => 'Y' | 'z' => 'Z'
  | other => other

/-- `(name or "").replace("\x00", " ")`. -/
def replaceNul (l : List Char) : List Char :=
  l.map (fun c => if c = '\x00' then ' ' else c)

/-- Python `str.strip()`: drop whitespace from both ends. -/
def pyStrip (l : List Char) : List Char :=
  (((l.dropWhile pyIsSpace).reverse.dropWhile pyIsSpace).reverse)

/-- Python `str.split()` with no separator: split on whitespace runs,
discarding empty fields. -/
def pySplitWs (l : List Char) : List (List Char) :=
  (l.splitOnP pyIsSpace).filter (fun t => !t.isEmpty)

/-- Python `" ".join(tokens)`. -/
def joinSp : List (List Char) → List Char
  | [] => []
  | [t] => t
  | t :: ts => t ++ ' ' :: joinSp ts

/-- `normalize_name` (worker.py lines 38-40) at the character-list level:
`" ".join(name.replace("\x00", " ").strip().upper().split())`. -/
def normChars (l : List Char) : List Char :=
  joinSp (pySplitWs ((pyStrip (replaceNul l)).map pyUpperChar))

/-- `normalize_name` on strings. -/
def normalize_name (s : String) : String :=
  ⟨normChars s.data⟩

/-! ## worker.py trip segmentation (lines 56-78) -/

/-- One entry of the `trip_state` dict:
`{trip_id, last_ts, last_lat, last_lon}` (worker.py line 32). -/
structure TripState where
  trip_id : ℕ
  last_ts : TS
  last_lat : ℚ
  last_lon : ℚ
deriving DecidableEq

/-- `should_record_point` (worker.py lines 56-66).  The `try` block parses the
previous and current timestamps; any parse failure sets `dt` to
`MIN_POINT_TIME_SEC`. -/
def should_record_point (G : Geo) (prev : Option TripState) (lat lon : ℚ) (ts : TS) : Bool :=
  match prev with
  | none => true
  | some p =>
    let dt : ℚ :=
      match p.last_ts.parse, ts.parse with
      | some a, some b => ((b - a : ℤ) : ℚ)
      | _, _ => MIN_POINT_TIME_SEC
    let dist_km := G.hav p.last_lat p.last_lon lat lon
    decide (MIN_POINT_TIME_SEC ≤ dt) || decide (MIN_POINT_DISTANCE_M ≤ dist_km * 1000)

/-- `maybe_new_trip` (worker.py lines 68-78).  Any timestamp parse failure sets
`gap_hours` to `0`. -/
def maybe_new_trip (G : Geo) (prev : Option TripState) (lat lon : ℚ) (ts : TS) : Bool :=
  match prev with
  | none => true
  | some p =>
    let gap_hours : ℚ :=
      match p.last_ts.parse, ts.parse with
      | some a, some b => ((b - a : ℤ) : ℚ) / 3600
      | _, _ => 0
    let jump_km := G.hav p.last_lat p.last_lon lat lon
    decide (NEW_TRIP_GAP_HOURS ≤ gap_hours) || decide (NEW_TRIP_JUMP_KM ≤ jump_km)

/-- The `trip_id` computed by `on_message` (worker.py lines 161-164):
`prev["trip_id"] + 1` if `maybe_new_trip`, else `prev["trip_id"]`, and `1`
on the first report (where `maybe_new_trip` is always true). -/
def next_trip_id (G : Geo) (prev : Option TripState) (lat lon : ℚ) (ts : TS) : ℕ :=
  match prev with
  | none => 1
  | some p => if maybe_new_trip G (some p) lat lon ts then p.trip_id + 1 else p.trip_id

/-! ## worker.py `on_message` state machine (lines 88-171) -/

/-- One entry of `mmsi_registry`: `{name, line}` (worker.py line 33). -/
structure RegEntry where
  name : String
  line : String
deriving DecidableEq

/-- The field dict passed to `upsert_ship_last_seen` (worker.py lines 114-122
and 150-158). -/
structure ShipDoc where
  name : String
  line : String
  lat : Option ℚ
  lon : Option ℚ
  speed : Option ℚ
  course : Option ℚ
  last_seen : Option TS
deriving DecidableEq

/-- One record appended by `append_track_point` (worker.py line 167). -/
structure TrackPoint where
  mmsi : ℕ
  trip_id : ℕ
  ts : TS
  lat : ℚ
  lon : ℚ
  sog : Option ℚ
  cog : Option ℚ
deriving DecidableEq

/-- A decoded AISStream message.  `UserID` is `Option ℕ` (`0` is Python-falsy),
`Name` is `Option String` (`""` is Python-falsy); `lat`, `lon`, `sog`, `cog`
are optional numbers.  For a position report, `now` is the wall-clock receive
time `utc_now_iso()` that `on_message` stamps on the event (worker.py
line 146).  `other` covers undecodable payloads and other message types. -/
inductive Msg where
  | staticData (userId : Option ℕ) (rawName : Option String)
  | positionReport (userId : Option ℕ) (lat lon sog cog : Option ℚ) (now : TS)
  | other
deriving DecidableEq

/-- Process-wide worker state: the two in-memory dicts (worker.py lines 32-33)
plus the log of persistence calls made so far (`upsert_ship_last_seen`
appends to `ships`, `append_track_point` appends to `tracks`). -/
structure WorkerState where
  mmsi_registry : ℕ → Option RegEntry
  trip_state : ℕ → Option TripState
  ships : List (ℕ × ShipDoc)
  tracks : List TrackPoint

/-- Pointwise update of a keyed map. -/
def updateMap (f : ℕ → Option α) (k : ℕ) (v : Option α) : ℕ → Option α :=
  fun n => if n = k then v else f n

/-- The sanity filter on speed over ground (worker.py lines 143-144):
drop when `sog` is a number greater than `MAX_REASONABLE_SOG`. -/
def sogOver (sog : Option ℚ) : Bool :=
  match sog with
  | some v => decide (MAX_REASONABLE_SOG < v)
  | none => false

/-- `on_message` (worker.py lines 88-171) as a state transition.  Every
`return` path yields the unchanged state. -/
def onMessage (G : Geo) (s : WorkerState) (msg : Msg) : WorkerState :=
  match msg with
  | .other => s
  | .staticData userId rawName =>
    match userId, rawName with
    | some mmsi, some raw_name =>
      if mmsi = 0 ∨ raw_name = "" then s
      else
        let name := normalize_name raw_name
        match find_line_for_ship name with
        | none => s
        | some line =>
          { s with
            mmsi_registry := updateMap s.mmsi_registry mmsi (some ⟨name, line⟩),
            ships := s.ships ++ [(mmsi, ⟨name, line, none, none, none, none, none⟩)] }
    | _, _ => s
  | .positionReport userId lat? lon? sog cog now =>
    match userId with
    | none => s
    | some mmsi =>
      if mmsi = 0 then s
      else
        match s.mmsi_registry mmsi with
        | none => s
        | some reg =>
          match lat?, lon? with
          | some lat, some lon =>
            if sogOver sog then s
            else
              let ts := now
              let prev := s.trip_state mmsi
              let trip_id := next_trip_id G prev lat lon ts
              { s with
                ships := s.ships ++
                  [(mmsi, ⟨reg.name, reg.line, some lat, some lon, sog, cog, some ts⟩)],
                tracks :=
                  if should_record_point G prev lat lon ts then
                    s.tracks ++ [⟨mmsi, trip_id, ts, lat, lon, sog, cog⟩]
                  else s.tracks,
                trip_state := updateMap s.trip_state mmsi (some ⟨trip_id, ts, lat, lon⟩) }
          | _, _ => s

/-- The worker's state at process start: empty dicts, no persistence calls. -/
def initState : WorkerState :=
  { mmsi_registry := fun _ => none, trip_state := fun _ => none, ships := [], tracks := [] }

/-- Process a sequence of decoded messages in arrival order. -/
def processMsgs (G : Geo) (msgs : List Msg) : WorkerState :=
  msgs.foldl (onMessage G) initState

/-- The trip ids stamped on the recorded track points of one vessel,
in record order. -/
def tripIdsFor (s : WorkerState) (m : ℕ) : List ℕ :=
  (s.tracks.filter (fun tp => tp.mmsi == m)).map (·.trip_id)

/-! ## voyage_utils.py geo math (lines 62-64) -/

/-- `angle_diff` (voyage_utils.py lines 62-64): smallest angular distance
between two bearings, using Python's float `%`. -/
def angle_diff (a b : ℚ) : ℚ :=
  let d := |qmod (a - b) 360|
  min d (360 - d)

/-! ## voyage_utils.py data model -/

/-- A row of the static port table: `{name, country, lat, lon}`. -/
structure Port where
  name : String
  country : String
  lat : ℚ
  lon : ℚ
deriving DecidableEq

/-- A loaded track point as consumed by the detectors
(voyage_utils.py `load_track_points`): `lat`/`lon` present, optional
timestamp string, optional speed and course, optional `trip_id`. -/
structure Pt where
  lat : ℚ
  lon : ℚ
  ts : TS
  speed : Option ℚ
  course : Option ℚ
  trip_id : Option ℤ
deriving DecidableEq

/-- `get_latest_trip` (voyage_utils.py lines 120-129). -/
def get_latest_trip (points : List Pt) : List Pt :=
  match points with
  | [] => []
  | _ :: _ =>
    let last_trip :=
      points.foldl (fun acc p => match p.trip_id with | some t => some t | none => acc)
        (none : Option ℤ)
    match last_trip with
    | none => points
    | some t => points.filter (fun p => p.trip_id == some t)

/-! ## voyage_utils.py `detect_port_stops` (lines 136-239) -/

/-- The open candidate stop: `{port, start_ts, end_ts, min_dist_km}`
(voyage_utils.py line 166). -/
structure Cand where
  port : Port
  start_ts : ℤ
  end_ts : ℤ
  min_dist_km : ℚ
deriving DecidableEq

/-- An emitted `PortStop` (voyage_utils.py lines 179-188); the two
timestamps are kept as parsed epoch seconds. -/
structure PortStop where
  name : String
  country : String
  lat : ℚ
  lon : ℚ
  arrived_at : ℤ
  departed_at : ℤ
  dwell_minutes : ℤ
  min_distance_km : ℚ
deriving DecidableEq

/-- The inner `nearest_port` closure (voyage_utils.py lines 155-163):
linear scan with `best_d` starting at `1e9` and strict improvement. -/
def nearest_port (G : Geo) (ports : List Port) (lat lon : ℚ) : Option Port × ℚ :=
  ports.foldl
    (fun best prt =>
      let d := G.hav lat lon prt.lat prt.lon
      if d < best.2 then (some prt, d) else best)
    (none, 10 ^ 9)

/-- The finalize step of `detect_port_stops` (voyage_utils.py lines 176-188,
repeated at 196-208 and 225-237): emit the candidate as a `PortStop` when its
dwell in minutes reaches `min_dwell_min`, else emit nothing. -/
def finalizeCand (min_dwell_min : ℚ) (c : Cand) : List PortStop :=
  let dwell : ℚ := ((c.end_ts - c.start_ts : ℤ) : ℚ) / 60
  if min_dwell_min ≤ dwell then
    [⟨c.port.name, c.port.country, c.port.lat, c.port.lon, c.start_ts, c.end_ts,
      roundHE dwell, roundTo 2 c.min_dist_km⟩]
  else []

/-- One iteration of the `for p in pts` loop of `detect_port_stops`
(voyage_utils.py lines 168-222), acting on `(stops, current)`. -/
def stepStop (G : Geo) (ports : List Port) (near_km slow_kn min_dwell_min : ℚ)
    (st : List PortStop × Option Cand) (p : Pt) : List PortStop × Option Cand :=
  match p.ts.parse with
  | none => st
  | some t =>
    let pr := nearest_port G ports p.lat p.lon
    let finalized : List PortStop × Option Cand :=
      (st.1 ++ (match st.2 with | some c => finalizeCand min_dwell_min c | none => []), none)
    match pr.1 with
    | none => finalized
    | some q =>
      if near_km < pr.2 then finalized
      else
        let speed := p.speed.getD 0
        if slow_kn < speed then finalized
        else
          match st.2 with
          | some c =>
            if c.port.name = q.name then
              (st.1, some { c with end_ts := t, min_dist_km := min c.min_dist_km pr.2 })
            else (st.1, some ⟨q, t, t, pr.2⟩)
          | none => (st.1, some ⟨q, t, t, pr.2⟩)

/-- The scan loop of `detect_port_stops` plus the trailing finalize
(voyage_utils.py lines 168-237). -/
def scanStops (G : Geo) (ports : List Port) (near_km slow_kn min_dwell_min : ℚ) :
    List PortStop × Option Cand → List Pt → List PortStop
  | st, [] => st.1 ++ (match st.2 with | some c => finalizeCand min_dwell_min c | none => [])
  | st, p :: rest => scanStops G ports near_km slow_kn min_dwell_min
      (stepStop G ports near_km slow_kn min_dwell_min st p) rest

/-- `detect_port_stops` (voyage_utils.py lines 136-239). -/
def detect_port_stops (G : Geo) (points : List Pt) (ports : List Port)
    (near_km : ℚ := 6) (slow_kn : ℚ := 6 / 5) (min_dwell_min : ℚ := 30) : List PortStop :=
  if points.isEmpty || ports.isEmpty then []
  else scanStops G ports near_km slow_kn min_dwell_min ([], none) (get_latest_trip points)

/-! ## voyage_utils.py `predict_next_port` (lines 246-312) -/

/-- The last known point handed to the predictor: optional coordinates
(`_to_float` of dict fields) and optional course. -/
structure LastPoint where
  lat : Option ℚ
  lon : Option ℚ
  course : Option ℚ
deriving DecidableEq

/-- The prediction record returned by `predict_next_port`
(voyage_utils.py lines 304-312). -/
structure Prediction where
  name : String
  country : String
  lat : ℚ
  lon : ℚ
  distance_km : Option ℚ
  heading_diff_deg : Option ℚ
  score : ℚ
deriving DecidableEq

/-- The candidate list of `predict_next_port` (voyage_utils.py lines 269-273):
each port paired with its distance, kept when within `max_km`. -/
def candidatesOf (G : Geo) (lat lon : ℚ) (ports : List Port) (max_km : ℚ) :
    List (Port × ℚ) :=
  (ports.map (fun p => (p, G.hav lat lon p.lat p.lon))).filter
    (fun pd => decide (pd.2 ≤ max_km))

/-- `max(d for _, d in candidates)` over a candidate list (`0` for the empty
list, which `predict_next_port` never reaches). -/
def dmaxRaw : List (Port × ℚ) → ℚ
  | [] => 0
  | c :: cs => cs.foldl (fun a b => max a b.2) c.2

/-- `dmax = max(...) or 1.0` (voyage_utils.py line 278): a zero maximum
distance is replaced by `1.0` by Python falsiness. -/
def dmaxAdj (cands : List (Port × ℚ)) : ℚ :=
  let d := dmaxRaw cands
  if d = 0 then 1 else d

/-- `dist_score = 1.0 - (dkm / dmax)` (voyage_utils.py line 286). -/
def distScore (dkm dmax : ℚ) : ℚ := 1 - dkm / dmax

/-- The per-candidate score of the selection loop (voyage_utils.py
lines 285-296): combined score and heading difference when course is known,
else the distance score alone. -/
def predScore (G : Geo) (lat lon : ℚ) (course : Option ℚ)
    (heading_weight distance_weight dmax : ℚ) (pd : Port × ℚ) : ℚ × Option ℚ :=
  let dist_score := distScore pd.2 dmax
  match course with
  | some cv =>
    let brng := G.brg lat lon pd.1.lat pd.1.lon
    let diff := angle_diff cv brng
    let head_score := max 0 (1 - diff / 180)
    (heading_weight * head_score + distance_weight * dist_score, some diff)
  | none => (dist_score, none)

/-- The best-candidate selection loop (voyage_utils.py lines 280-302):
`best_score` starts at `-1e9` and is improved strictly. -/
def predBest (G : Geo) (lat lon : ℚ) (course : Option ℚ)
    (heading_weight distance_weight dmax : ℚ) (cands : List (Port × ℚ)) :
    Option (Port × ℚ × Option ℚ) × ℚ :=
  cands.foldl
    (fun acc pd =>
      let sh := predScore G lat lon course heading_weight distance_weight dmax pd
      if acc.2 < sh.1 then (some (pd.1, pd.2, sh.2), sh.1) else acc)
    (none, -(10 ^ 9))

/-- `predict_next_port` (voyage_utils.py lines 246-312).  The final `best` is
always `some` because the candidate list is nonempty and every score exceeds
`-1e9`; the `none` fallback in that match is unreachable. -/
def predict_next_port (G : Geo) (last_point : LastPoint) (ports : List Port)
    (max_km : ℚ := 900) (heading_weight : ℚ := 13 / 20) (distance_weight : ℚ := 7 / 20) :
    Option Prediction :=
  match last_point.lat, last_point.lon with
  | some lat, some lon =>
    if ports.isEmpty then none
    else
      let course := last_point.course
      match candidatesOf G lat lon ports max_km with
      | [] => none
      | c :: cs =>
        let dmax := dmaxAdj (c :: cs)
        match predBest G lat lon course heading_weight distance_weight dmax (c :: cs) with
        | (some b, best_score) =>
          some ⟨b.1.name, b.1.country, b.1.lat, b.1.lon, some (roundTo 1 b.2.1),
            b.2.2.map (roundTo 1), roundTo 3 best_score⟩
        | (none, _) => none
  | _, _ => none

/-! ## Spec-modelled variant used to refute C3 -/

/-- Modelled from the spec: the new-trip rule of §4.4 with the edge case of
§4.4 taken literally, "if timestamp parsing of the previous state fails, the
elapsed-time component defaults to the minimum threshold (i.e., treated as
enough time has passed)": on parse failure `gap_hours` becomes
`NEW_TRIP_GAP_HOURS` instead of the `0` the code uses.  Only the default in
the parse-failure branch differs from `maybe_new_trip`. -/
def maybe_new_trip_specC3 (G : Geo) (prev : Option TripState) (lat lon : ℚ) (ts : TS) : Bool :=
  match prev with
  | none => true
  | some p =>
    let gap_hours : ℚ :=
      match p.last_ts.parse, ts.parse with
      | some a, some b => ((b - a : ℤ) : ℚ) / 3600
      | _, _ => NEW_TRIP_GAP_HOURS
    let jump_km := G.hav p.last_lat p.last_lon lat lon
    decide (NEW_TRIP_GAP_HOURS ≤ gap_hours) || decide (NEW_TRIP_JUMP_KM ≤ jump_km)

/-! ## Invariants used in the fold proofs -/

/-- Per-vessel trip-id invariant: the ids stamped on the vessel's recorded
track points form a non-decreasing chain, every stamped id is bounded by the
current trip-state id, and no points exist before the first accepted report. -/
def TripInv (m : ℕ) (s : WorkerState) : Prop :=
  List.Chain' (· ≤ ·) (tripIdsFor s m)
  ∧ (∀ x ∈ tripIdsFor s m, ∀ p, s.trip_state m = some p → x ≤ p.trip_id)
  ∧ (s.trip_state m = none → tripIdsFor s m = [])

/-- Registry invariant: every registry entry's name classifies to its line. -/
def RegInv (s : WorkerState) : Prop :=
  ∀ m e, s.mmsi_registry m = some e → find_line_for_ship e.name = some e.line

/-- Strict timestamp order between two track points, on the points whose
timestamps parse. -/
def tsLT (p q : Pt) : Prop :=
  ∀ a b, p.ts.parse = some a → q.ts.parse = some b → a < b

/-- Scan-state invariant for `detect_port_stops`: emitted stops are strictly
chronological and well-formed, the open candidate (if any) starts after every
emitted stop, and every remaining point lies strictly after everything emitted
or open. -/
def ScanInv (st : List PortStop × Option Cand) (rem : List Pt) : Prop :=
  List.Chain' (fun a b => a.departed_at < b.arrived_at) st.1
  ∧ (∀ s ∈ st.1, s.arrived_at ≤ s.departed_at)
  ∧ (∀ c, st.2 = some c → c.start_ts ≤ c.end_ts ∧ ∀ s ∈ st.1, s.departed_at < c.start_ts)
  ∧ (∀ p ∈ rem, ∀ t, p.ts.parse = some t →
      (∀ s ∈ st.1, s.departed_at < t) ∧ (∀ c, st.2 = some c → c.end_ts < t))

/-! ## Concrete instances used by witnesses and counterexamples -/

/-- A geometry whose distance is constant and whose bearing is `0`. -/
def constGeo (d : ℚ) : Geo := ⟨fun _ _ _ _ => d, fun _ _ _ _ => 0⟩

/-- Geometry for the C2 scenario: distance in km is the absolute latitude
difference (so `0.1` degrees of latitude is `100` meters). -/
def geoLat : Geo := ⟨fun la1 _ la2 _ => |la2 - la1|, fun _ _ _ _ => 0⟩

/-- C2 scenario: one registration, then three accepted reports.  The second
report (`t = 30 s`, `100 m` moved) is accepted but not recorded; the third
(`t = 59 s`, another `100 m`) is `29 s` and `100 m` from the second, but
`59 s` and `200 m` from the last *recorded* point. -/
def msgsC2 : List Msg :=
  [ .staticData (some 7) (some "SCARLET LADY"),
    .positionReport (some 7) (some 0) (some 0) none none (.good 0),
    .positionReport (some 7) (some (1 / 10)) (some 0) none none (.good 30),
    .positionReport (some 7) (some (2 / 10)) (some 0) none none (.good 59) ]

/-- Witness run for C1: one registration and two accepted reports. -/
def msgsC1 : List Msg :=
  [ .staticData (some 7) (some "SCARLET LADY"),
    .positionReport (some 7) (some 0) (some 0) none none (.good 0),
    .positionReport (some 7) (some 0) (some 0) none none (.good 30) ]

/-- Witness run for C9: identity messages for an unclassified name followed by
a position report for the same id. -/
def msgsC9 : List Msg :=
  [ .staticData (some 9) (some "BOATY MCBOATFACE"),
    .staticData (some 9) (some "BOATY MCBOATFACE"),
    .positionReport (some 9) (some 1) (some 2) none none (.good 5) ]

/-- Geometry for the C4 scenario: taxicab distance in degrees, so port "A" at
the origin and port "B" one degree of longitude away are `1 km` apart. -/
def geoTaxi : Geo := ⟨fun la1 lo1 la2 lo2 => |la2 - la1| + |lo2 - lo1|, fun _ _ _ _ => 0⟩

/-- The two ports of the C4 counterexample. -/
def portsC4 : List Port := [⟨"A", "", 0, 0⟩, ⟨"B", "", 0, 1⟩]

/-- The C4 counterexample track: 40 slow minutes at port "A", then a slow
point at port "B" 60 seconds later. -/
def ptsC4 : List Pt :=
  [ ⟨0, 0, .good 0, some 0, none, none⟩,
    ⟨0, 0, .good 2400, some 0, none, none⟩,
    ⟨0, 1, .good 2460, some 0, none, none⟩ ]

/-- The candidate open after the first two points of `ptsC4`: dwell 40 min at
port "A". -/
def candC4 : Cand := ⟨⟨"A", "", 0, 0⟩, 0, 2400, 0⟩

/-- Geometry for the C7 scenario, encoding the claim's two ports: every port
row with latitude `25` (the eastern port) is `100 km` away at bearing `90`,
and the other (the northern port) is `50 km` away at bearing `0`. -/
def geoC7 : Geo :=
  ⟨fun _ _ la2 _ => if la2 = 25 then 100 else 50,
   fun _ _ la2 _ => if la2 = 25 then 90 else 0⟩

/-- The C7 ports: one due east of `(25, -80)` at `100 km`, one due north at
`50 km`. -/
def portsC7 : List Port := [⟨"EAST", "", 25, -79⟩, ⟨"NORTH", "", 26, -80⟩]

/-- The C7 last point: `(25, -80)`, course `90`. -/
def lastPointC7 : LastPoint := ⟨some 25, some (-80), some 90⟩

/-- The C5 counterexample ports (two distinct rows, any coordinates). -/
def portsC5 : List Port := [⟨"P", "", 0, 0⟩, ⟨"Q", "", 1, 1⟩]

/-- The ASCII lowercase letters (the domain `pyUpperChar` changes). -/
def lcChars : List Char :=
  ['a', 'b', 'c', 'd', 'e', 'f', 'g', 'h', 'i', 'j', 'k', 'l', 'm',
   'n', 'o', 'p', 'q', 'r', 's', 't', 'u', 'v', 'w', 'x', 'y', 'z']

/-- The ASCII uppercase letters (the range `pyUpperChar` maps them to). -/
def ucChars : List Char :=
  ['A', 'B', 'C', 'D', 'E', 'F', 'G', 'H', 'I', 'J', 'K', 'L', 'M',
   'N', 'O', 'P', 'Q', 'R', 'S', 'T', 'U', 'V', 'W', 'X', 'Y', 'Z']

/-- Worker state after registering vessel 7 and accepting (and recording) a
first report at the origin at time 0, used by the C2 amended witness. -/
def stateC2W : WorkerState :=
  processMsgs geoLat
    [.staticData (some 7) (some "SCARLET LADY"),
     .positionReport (some 7) (some 0) (some 0) none none (.good 0)]

/-!
# Theorems

The rational-arithmetic primitives of Batteries are marked irreducible, which
blocks `decide` on concrete runs; they are made semireducible locally for the
scope of the proofs below.
-/

section MainTheorems

attribute [local semireducible] Rat.add Rat.mul Rat.inv Rat.sub

/-- C6: `should_record_point` returns true when there is no previous state;
for consecutive points 30 seconds and 50 meters apart it returns false (both
thresholds unmet); for points 90 seconds apart it returns true regardless of
distance. -/
theorem record_point_thresholds (G : Geo) (lat lon : ℚ) (ts : TS) :
    should_record_point G none lat lon ts = true
    ∧ (∀ p a b, p.last_ts.parse = some a → ts.parse = some b → b - a = 30 →
        G.hav p.last_lat p.last_lon lat lon * 1000 = 50 →
        should_record_point G (some p) lat lon ts = false)
    ∧ (∀ p a b, p.last_ts.parse = some a → ts.parse = some b → b - a = 90 →
        should_record_point G (some p) lat lon ts = true) := by
  refine ⟨rfl, ?_, ?_⟩
  · intro p a b ha hb hab hdist
    simp only [should_record_point, ha, hb]
    rw [hab]
    simp only [Bool.or_eq_false_iff, decide_eq_false_iff_not]
    constructor
    · norm_num [MIN_POINT_TIME_SEC]
    · rw [hdist]; norm_num [MIN_POINT_DISTANCE_M]
  · intro p a b ha hb hab
    simp only [should_record_point, ha, hb]
    rw [hab]
    simp only [Bool.or_eq_true, decide_eq_true_eq]
    left
    norm_num [MIN_POINT_TIME_SEC]

/-- Witness for C6: constant geometry at 50 meters, reports 30 s and 90 s
after a previous state at time 0. -/
theorem record_point_thresholds_witness :
    should_record_point (constGeo (1 / 20)) none 0 0 (TS.good 0) = true
    ∧ should_record_point (constGeo (1 / 20)) (some ⟨1, TS.good 0, 0, 0⟩) 0 0 (TS.good 30) = false
    ∧ should_record_point (constGeo (1 / 20)) (some ⟨1, TS.good 0, 0, 0⟩) 0 0 (TS.good 90) = true :=
  ⟨(record_point_thresholds (constGeo (1 / 20)) 0 0 (TS.good 0)).1,
   (record_point_thresholds (constGeo (1 / 20)) 0 0 (TS.good 30)).2.1
     ⟨1, TS.good 0, 0, 0⟩ 0 30 rfl rfl (by decide) (by decide),
   (record_point_thresholds (constGeo (1 / 20)) 0 0 (TS.good 90)).2.2
     ⟨1, TS.good 0, 0, 0⟩ 0 90 rfl rfl (by decide)⟩

/-- C3 fails on the code: with an unparseable previous timestamp and zero
jump, `maybe_new_trip` returns false, whereas the claim's fail-open default
(elapsed time treated as having met the 6-hour threshold, as in the
spec-modelled `maybe_new_trip_specC3`) would return true. -/
theorem parse_failure_cex :
    maybe_new_trip (constGeo 0) (some ⟨1, TS.bad, 0, 0⟩) 0 0 (TS.good 0) = false
    ∧ maybe_new_trip_specC3 (constGeo 0) (some ⟨1, TS.bad, 0, 0⟩) 0 0 (TS.good 0) = true := by
  exact ⟨by decide, by decide⟩

/-- C3 amended: when parsing the previous (or current) timestamp fails,
`should_record_point` treats the elapsed time as having met its 60-second
threshold and therefore returns true, while `maybe_new_trip` treats the gap
as 0 hours — threshold NOT met — so the decision reduces to the 150-km jump
test alone; neither decision propagates an exception. -/
theorem parse_failure_fail_open (G : Geo) (p : TripState) (lat lon : ℚ) (ts : TS)
    (h : p.last_ts.parse = none ∨ ts.parse = none) :
    should_record_point G (some p) lat lon ts = true
    ∧ maybe_new_trip G (some p) lat lon ts
      = decide (NEW_TRIP_JUMP_KM ≤ G.hav p.last_lat p.last_lon lat lon) := by
  rcases h with h | h
  · constructor
    · simp [should_record_point, h]
    · simp [maybe_new_trip, h, NEW_TRIP_GAP_HOURS]
  · cases hp : p.last_ts.parse with
    | none =>
      constructor
      · simp [should_record_point, hp]
      · simp [maybe_new_trip, hp, NEW_TRIP_GAP_HOURS]
    | some a =>
      constructor
      · simp [should_record_point, hp, h]
      · simp [maybe_new_trip, hp, h, NEW_TRIP_GAP_HOURS]

/-- Witness for the amended C3: a malformed stored timestamp with a 200-km
jump still records a point and opens a new trip via the jump trigger. -/
theorem parse_failure_fail_open_witness :
    should_record_point (constGeo 200) (some ⟨1, TS.bad, 0, 0⟩) 0 0 (TS.good 0) = true
    ∧ maybe_new_trip (constGeo 200) (some ⟨1, TS.bad, 0, 0⟩) 0 0 (TS.good 0) = true := by
  obtain ⟨h1, h2⟩ :=
    parse_failure_fail_open (constGeo 200) ⟨1, TS.bad, 0, 0⟩ 0 0 (TS.good 0) (Or.inl rfl)
  exact ⟨h1, by rw [h2]; decide⟩

/-! ### C1: trip-id monotonicity -/

/-- The trip id never decreases in one step. -/
theorem le_next_trip_id (G : Geo) (p : TripState) (lat lon : ℚ) (ts : TS) :
    p.trip_id ≤ next_trip_id G (some p) lat lon ts := by
  simp only [next_trip_id]
  split <;> omega

/-- `TripInv` only depends on the vessel's stamped ids and trip state. -/
theorem tripInv_congr (s s' : WorkerState) (m : ℕ)
    (htr : tripIdsFor s' m = tripIdsFor s m) (hts : s'.trip_state m = s.trip_state m)
    (h : TripInv m s) : TripInv m s' := by
  obtain ⟨h1, h2, h3⟩ := h
  refine ⟨?_, ?_, ?_⟩
  · rw [htr]; exact h1
  · intro x hx p hp
    rw [htr] at hx; rw [hts] at hp
    exact h2 x hx p hp
  · intro hn
    rw [hts] at hn; rw [htr]
    exact h3 hn

/-- `TripInv` holds at process start. -/
theorem tripInv_init (m : ℕ) : TripInv m initState :=
  ⟨List.chain'_nil, fun x hx => absurd hx (List.not_mem_nil x), fun _ => rfl⟩

/-- `TripInv` is preserved by the accepted-position-report update. -/
theorem tripInv_accept (G : Geo) (m mmsi : ℕ) (s s' : WorkerState) (lat lon : ℚ)
    (sog cog : Option ℚ) (now : TS) (h : TripInv m s)
    (htracks : s'.tracks =
      if should_record_point G (s.trip_state mmsi) lat lon now then
        s.tracks ++
          [⟨mmsi, next_trip_id G (s.trip_state mmsi) lat lon now, now, lat, lon, sog, cog⟩]
      else s.tracks)
    (hstate : s'.trip_state =
      updateMap s.trip_state mmsi
        (some ⟨next_trip_id G (s.trip_state mmsi) lat lon now, now, lat, lon⟩)) :
    TripInv m s' := by
  obtain ⟨hchain, hbound, hempty⟩ := h
  by_cases hmm : mmsi = m
  · subst hmm
    set k := next_trip_id G (s.trip_state mmsi) lat lon now with hk
    have hstm : s'.trip_state mmsi = some ⟨k, now, lat, lon⟩ := by
      rw [hstate]; unfold updateMap; rw [if_pos rfl]
    have hidsP : should_record_point G (s.trip_state mmsi) lat lon now = true →
        tripIdsFor s' mmsi = tripIdsFor s mmsi ++ [k] := by
      intro hrec
      unfold tripIdsFor
      rw [htracks, if_pos hrec]
      simp [List.filter_append]
    have hidsN : ¬(should_record_point G (s.trip_state mmsi) lat lon now = true) →
        tripIdsFor s' mmsi = tripIdsFor s mmsi := by
      intro hrec
      unfold tripIdsFor
      rw [htracks, if_neg hrec]
    have hbk : ∀ x ∈ tripIdsFor s mmsi, x ≤ k := by
      intro x hx
      cases hprev : s.trip_state mmsi with
      | none => rw [hempty hprev] at hx; exact absurd hx (List.not_mem_nil x)
      | some p0 =>
        have h1 := hbound x hx p0 hprev
        have h2 : p0.trip_id ≤ k := by
          rw [hk, hprev]; exact le_next_trip_id G p0 lat lon now
        omega
    refine ⟨?_, ?_, ?_⟩
    · by_cases hrec : should_record_point G (s.trip_state mmsi) lat lon now = true
      · rw [hidsP hrec, List.chain'_append]
        refine ⟨hchain, List.chain'_singleton k, ?_⟩
        intro x hx y hy
        simp only [List.head?_cons, Option.mem_def, Option.some.injEq] at hy
        rw [← hy]
        exact hbk x (List.mem_of_mem_getLast? hx)
      · rw [hidsN hrec]; exact hchain
    · intro x hx p hp
      rw [hstm] at hp
      have hpk : (⟨k, now, lat, lon⟩ : TripState) = p := Option.some_inj.mp hp
      rw [← hpk]
      by_cases hrec : should_record_point G (s.trip_state mmsi) lat lon now = true
      · rw [hidsP hrec] at hx
        rcases List.mem_append.mp hx with hx | hx
        · exact hbk x hx
        · simp only [List.mem_singleton] at hx
          subst hx
          exact Nat.le.refl
      · rw [hidsN hrec] at hx
        exact hbk x hx
    · intro hn
      rw [hstm] at hn
      exact absurd hn (by simp)
  · refine tripInv_congr s s' m ?_ ?_ ⟨hchain, hbound, hempty⟩
    · unfold tripIdsFor
      rw [htracks]
      by_cases hrec : should_record_point G (s.trip_state mmsi) lat lon now = true
      · rw [if_pos hrec]
        simp [List.filter_append, hmm]
      · rw [if_neg hrec]
    · rw [hstate]; unfold updateMap
      rw [if_neg (fun hc : m = mmsi => hmm hc.symm)]

/-- One `on_message` step preserves `TripInv`. -/
theorem tripInv_step (G : Geo) (m : ℕ) (s : WorkerState) (msg : Msg)
    (h : TripInv m s) : TripInv m (onMessage G s msg) := by
  cases msg with
  | other => exact h
  | staticData uid raw =>
    cases uid with
    | none => exact h
    | some mmsi =>
      cases raw with
      | none => exact h
      | some nm =>
        simp only [onMessage]
        split
        · exact h
        · split <;> exact h
  | positionReport uid lat? lon? sog cog now =>
    cases uid with
    | none => exact h
    | some mmsi =>
      simp only [onMessage]
      split
      · exact h
      · split
        · exact h
        · split
          · split
            · exact h
            · exact tripInv_accept G m mmsi s _ _ _ sog cog now h rfl rfl
          · exact h

/-- `TripInv` is preserved by any message sequence. -/
theorem tripInv_fold (G : Geo) (m : ℕ) :
    ∀ (msgs : List Msg) (s : WorkerState), TripInv m s →
      TripInv m (msgs.foldl (onMessage G) s) := by
  intro msgs
  induction msgs with
  | nil => intro s h; exact h
  | cons a l ih => intro s h; exact ih _ (tripInv_step G m s a h)

/-- C1: for every vessel and processed message sequence, the trip ids stamped
on the vessel's recorded track points are non-decreasing and never exceed the
id stored in trip state (so no smaller id is ever reused); the id is 1 on the
first accepted report (no previous state), increments by exactly 1 when
`maybe_new_trip` fires (6-hour gap or 150-km jump), and is unchanged
otherwise. -/
theorem trip_id_monotone (G : Geo) (msgs : List Msg) (m : ℕ) :
    List.Chain' (· ≤ ·) (tripIdsFor (processMsgs G msgs) m)
    ∧ (∀ x ∈ tripIdsFor (processMsgs G msgs) m, ∀ p,
        (processMsgs G msgs).trip_state m = some p → x ≤ p.trip_id)
    ∧ (∀ lat lon : ℚ, ∀ ts, next_trip_id G none lat lon ts = 1)
    ∧ (∀ p, ∀ lat lon : ℚ, ∀ ts, next_trip_id G (some p) lat lon ts
        = if maybe_new_trip G (some p) lat lon ts then p.trip_id + 1 else p.trip_id)
    ∧ (∀ p, ∀ lat lon : ℚ, ∀ ts, p.trip_id ≤ next_trip_id G (some p) lat lon ts) := by
  have h := tripInv_fold G m msgs initState (tripInv_init m)
  exact ⟨h.1, h.2.1, fun _ _ _ => rfl, fun _ _ _ _ => rfl,
    fun p lat lon ts => le_next_trip_id G p lat lon ts⟩

/-- Witness for C1: a concrete run (registration plus two accepted reports,
the second inside all thresholds) where the stamped ids are a chain, the
stored id bounds the stamped id, and the first id is 1. -/
theorem trip_id_monotone_witness :
    List.Chain' (· ≤ ·) (tripIdsFor (processMsgs (constGeo 0) msgsC1) 7)
    ∧ (1 : ℕ) ≤ (⟨1, TS.good 30, 0, 0⟩ : TripState).trip_id
    ∧ next_trip_id (constGeo 0) none 0 0 (TS.good 0) = 1 := by
  obtain ⟨h1, h2, h3, _, _⟩ := trip_id_monotone (constGeo 0) msgsC1 7
  exact ⟨h1, h2 1 (by decide) ⟨1, TS.good 30, 0, 0⟩ (by decide), h3 0 0 (TS.good 0)⟩

/-! ### C9: registry admission filter -/

/-- Position reports never change the registry. -/
theorem registry_pos_invariant (G : Geo) (s : WorkerState)
    (uid : Option ℕ) (lat? lon? sog cog : Option ℚ) (now : TS) :
    (onMessage G s (.positionReport uid lat? lon? sog cog now)).mmsi_registry
      = s.mmsi_registry := by
  cases uid with
  | none => rfl
  | some mmsi =>
    simp only [onMessage]
    split
    · rfl
    · split
      · rfl
      · split
        · split
          · rfl
          · rfl
        · rfl

/-- One `on_message` step preserves `RegInv`. -/
theorem regInv_step (G : Geo) (s : WorkerState) (msg : Msg)
    (h : RegInv s) : RegInv (onMessage G s msg) := by
  cases msg with
  | other => exact h
  | positionReport uid lat? lon? sog cog now =>
    intro m e he
    rw [registry_pos_invariant] at he
    exact h m e he
  | staticData uid raw =>
    cases uid with
    | none => exact h
    | some mmsi =>
      cases raw with
      | none => exact h
      | some nm =>
        simp only [onMessage]
        split
        · exact h
        · split
          · exact h
          · rename_i line hline
            intro m e he
            simp only [updateMap] at he
            by_cases hm : m = mmsi
            · rw [if_pos hm] at he
              cases Option.some_inj.mp he
              exact hline
            · rw [if_neg hm] at he
              exact h m e he

/-- `RegInv` is preserved by any message sequence. -/
theorem regInv_fold (G : Geo) :
    ∀ (msgs : List Msg) (s : WorkerState), RegInv s →
      RegInv (msgs.foldl (onMessage G) s) := by
  intro msgs
  induction msgs with
  | nil => intro s h; exact h
  | cons a l ih => intro s h; exact ih _ (regInv_step G s a h)

/-- A vessel id all of whose identity messages carry unclassified names never
acquires a registry entry. -/
theorem registry_unclassified_fold (G : Geo) (m : ℕ) :
    ∀ (msgs : List Msg) (s : WorkerState), s.mmsi_registry m = none →
      (∀ raw, Msg.staticData (some m) (some raw) ∈ msgs →
        find_line_for_ship (normalize_name raw) = none) →
      (msgs.foldl (onMessage G) s).mmsi_registry m = none := by
  intro msgs
  induction msgs with
  | nil => intro s h0 _; exact h0
  | cons a l ih =>
    intro s h0 hmsgs
    apply ih
    · cases a with
      | other => exact h0
      | positionReport uid lat? lon? sog cog now =>
        rw [registry_pos_invariant]; exact h0
      | staticData uid raw =>
        cases uid with
        | none => exact h0
        | some mmsi =>
          cases raw with
          | none => exact h0
          | some nm =>
            simp only [onMessage]
            split
            · exact h0
            · split
              · exact h0
              · rename_i line hline
                show updateMap s.mmsi_registry mmsi (some ⟨normalize_name nm, line⟩) m = none
                unfold updateMap
                by_cases hm : m = mmsi
                · exfalso
                  subst hm
                  have hx := hmsgs nm (List.mem_cons_self _ _)
                  rw [hx] at hline
                  exact Option.noConfusion hline
                · rw [if_neg hm]; exact h0
    · intro raw hr
      exact hmsgs raw (List.mem_cons_of_mem a hr)

/-- C9: a vessel id whose identity messages never classify to a fleet has no
registry entry after any message sequence; every registry entry present
classifies to its stored line (its name belongs to some fleet); and a
position report for an unregistered id leaves the worker state unchanged. -/
theorem registry_admission_filter (G : Geo) (msgs : List Msg) (m : ℕ) :
    ((∀ raw, Msg.staticData (some m) (some raw) ∈ msgs →
        find_line_for_ship (normalize_name raw) = none) →
      (processMsgs G msgs).mmsi_registry m = none)
    ∧ (∀ e, (processMsgs G msgs).mmsi_registry m = some e →
        find_line_for_ship e.name = some e.line)
    ∧ (∀ (s : WorkerState) (lat? lon? sog cog : Option ℚ) (now : TS),
        s.mmsi_registry m = none →
        onMessage G s (.positionReport (some m) lat? lon? sog cog now) = s) := by
  refine ⟨?_, ?_, ?_⟩
  · intro hmsgs
    exact registry_unclassified_fold G m msgs initState rfl hmsgs
  · intro e he
    exact regInv_fold G msgs initState (fun _ _ hx => Option.noConfusion hx) m e he
  · intro s lat? lon? sog cog now hnone
    simp only [onMessage]
    by_cases hm : m = 0
    · rw [if_pos hm]
    · rw [if_neg hm, hnone]

/-- Witness for C9: two identity messages for an unclassified name leave no
registry entry for id 9, and the position report for id 9 is a no-op on the
initial state. -/
theorem registry_admission_filter_witness :
    (processMsgs (constGeo 0) msgsC9).mmsi_registry 9 = none
    ∧ onMessage (constGeo 0) initState
        (.positionReport (some 9) (some 1) (some 2) none none (.good 5)) = initState := by
  obtain ⟨h1, _, h3⟩ := registry_admission_filter (constGeo 0) msgsC9 9
  refine ⟨h1 ?_, h3 initState (some 1) (some 2) none none (.good 5) rfl⟩
  intro raw hr
  simp only [msgsC9, List.mem_cons, List.not_mem_nil, or_false] at hr
  rcases hr with hr | hr | hr
  · injection hr with h9 hraw
    injection hraw with hraw
    subst hraw
    decide
  · injection hr with h9 hraw
    injection hraw with hraw
    subst hraw
    decide
  · exact Msg.noConfusion hr

/-! ### C2: the two "previous" references are in fact one -/

/-- C2 fails on the code: in the run `msgsC2` the second report is accepted
but not recorded, and the third report is then judged against the *second*
(the last accepted observation), not against the last recorded point — so
only the very first point is ever recorded, even though
`should_record_point` evaluated against the last *recorded* point (59 s,
200 m away) returns true at the third report. -/
theorem record_reference_cex :
    (processMsgs geoLat msgsC2).tracks = [⟨7, 1, TS.good 0, 0, 0, none, none⟩]
    ∧ should_record_point geoLat (some ⟨1, TS.good 0, 0, 0⟩) (2 / 10) 0 (TS.good 59) = true :=
  ⟨by decide, by decide⟩

/-- C2 amended: for every accepted position report, both the record-point
decision and the new-trip decision measure from the same single reference —
the last *accepted* observation stored in trip state — and trip state is
overwritten with the new observation unconditionally, so an intervening
accepted-but-unrecorded observation does reset the record-point rule's
reference. -/
theorem record_reference_amended (G : Geo) (s : WorkerState) (m : ℕ) (reg : RegEntry)
    (lat lon : ℚ) (sog cog : Option ℚ) (now : TS)
    (hm : ¬(m = 0)) (hreg : s.mmsi_registry m = some reg) (hsog : sogOver sog = false) :
    onMessage G s (.positionReport (some m) (some lat) (some lon) sog cog now)
      = { s with
          ships := s.ships ++
            [(m, ⟨reg.name, reg.line, some lat, some lon, sog, cog, some now⟩)],
          tracks :=
            if should_record_point G (s.trip_state m) lat lon now then
              s.tracks ++
                [⟨m, next_trip_id G (s.trip_state m) lat lon now, now, lat, lon, sog, cog⟩]
            else s.tracks,
          trip_state := updateMap s.trip_state m
            (some ⟨next_trip_id G (s.trip_state m) lat lon now, now, lat, lon⟩) } := by
  simp only [onMessage]
  rw [if_neg hm, hreg]
  simp only [hsog, Bool.false_eq_true, if_false]

/-- Witness for the amended C2: an accepted-but-unrecorded report still
overwrites the trip state with its own observation and appends nothing. -/
theorem record_reference_amended_witness :
    (onMessage geoLat stateC2W
        (.positionReport (some 7) (some (1 / 10)) (some 0) none none (.good 30))).trip_state 7
      = some ⟨1, .good 30, 1 / 10, 0⟩
    ∧ (onMessage geoLat stateC2W
        (.positionReport (some 7) (some (1 / 10)) (some 0) none none (.good 30))).tracks
      = stateC2W.tracks := by
  have h := record_reference_amended geoLat stateC2W 7 ⟨"SCARLET LADY", "virgin"⟩
    (1 / 10) 0 none none (.good 30) (by decide) (by decide) (by decide)
  rw [h]
  exact ⟨by decide, by decide⟩

/-! ### C4: finalization on a port switch -/

/-- C4 fails on the code: after 40 slow minutes at port "A" (candidate open,
dwell 40 ≥ 30), a slow point near port "B" silently *discards* the open
candidate instead of finalizing it, so the scan emits no stop at all. -/
theorem port_stop_discard_cex :
    List.foldl (stepStop geoTaxi portsC4 6 (6 / 5) 30) ([], none) (ptsC4.take 2)
      = ([], some candC4)
    ∧ (30 : ℚ) ≤ ((candC4.end_ts - candC4.start_ts : ℤ) : ℚ) / 60
    ∧ detect_port_stops geoTaxi ptsC4 portsC4 = [] :=
  ⟨by decide, by decide, by decide⟩

/-- C4 amended: when a slow point near a port different from the open
candidate's port is encountered, the emitted stops are left unchanged — the
old candidate is silently discarded without ever being emitted, regardless of
its dwell — and a fresh candidate is opened at the current port. -/
theorem port_stop_discard_amended (G : Geo) (ports : List Port)
    (near_km slow_kn min_dwell_min : ℚ) (stops : List PortStop) (c : Cand) (p : Pt)
    (t : ℤ) (q : Port) (d : ℚ)
    (ht : p.ts.parse = some t)
    (hq : nearest_port G ports p.lat p.lon = (some q, d))
    (hd : ¬(near_km < d))
    (hs : ¬(slow_kn < p.speed.getD 0))
    (hne : ¬(c.port.name = q.name)) :
    stepStop G ports near_km slow_kn min_dwell_min (stops, some c) p
      = (stops, some ⟨q, t, t, d⟩) := by
  simp only [stepStop, ht, hq]
  rw [if_neg hd, if_neg hs, if_neg hne]

/-- Witness for the amended C4: the third point of the C4 scenario replaces
the dwell-40 candidate at "A" by a fresh candidate at "B" without emitting. -/
theorem port_stop_discard_amended_witness :
    stepStop geoTaxi portsC4 6 (6 / 5) 30 ([], some candC4)
      ⟨0, 1, .good 2460, some 0, none, none⟩
      = ([], some ⟨⟨"B", "", 0, 1⟩, 2460, 2460, 0⟩) :=
  port_stop_discard_amended geoTaxi portsC4 6 (6 / 5) 30 [] candC4
    ⟨0, 1, .good 2460, some 0, none, none⟩ 2460 ⟨"B", "", 0, 1⟩ 0
    rfl (by decide) (by decide) (by decide) (by decide)

/-! ### C5: the distance score -/

/-- C5 fails on the code: with two candidate ports both 10 km away and no
course, the selected candidate's score — the distance score itself — is
`1 − 10/10 = 0`, not the 1 the claim asserts for equidistant candidates. -/
theorem dist_score_equidistant_cex :
    (predict_next_port (constGeo 10) ⟨some 0, some 0, none⟩ portsC5).map Prediction.score
      = some 0
    ∧ distScore 10 (dmaxAdj (candidatesOf (constGeo 10) 0 0 portsC5 900)) = 0 :=
  ⟨by decide, by decide⟩

/-- The fold computing the maximum candidate distance is constant on constant
distance lists. -/
theorem dmaxRaw_const (d : ℚ) :
    ∀ (cands : List (Port × ℚ)), cands ≠ [] → (∀ cd ∈ cands, cd.2 = d) →
      dmaxRaw cands = d := by
  have hfold : ∀ (cs : List (Port × ℚ)) (a : ℚ), (∀ cd ∈ cs, cd.2 = d) → a = d →
      cs.foldl (fun a b => max a b.2) a = d := by
    intro cs
    induction cs with
    | nil => intro a _ ha; exact ha
    | cons b bs ih =>
      intro a h ha
      have hb : b.2 = d := h b (List.mem_cons_self _ _)
      refine ih (max a b.2) (fun cd hcd => h cd (List.mem_cons_of_mem b hcd)) ?_
      rw [ha, hb, max_self]
  intro cands hne h
  cases cands with
  | nil => exact absurd rfl hne
  | cons c cs =>
    exact hfold cs c.2 (fun cd hcd => h cd (List.mem_cons_of_mem c hcd))
      (h c (List.mem_cons_self _ _))

/-- C5 amended: every candidate receives distance score `1 − d / dmax`, where
`dmax` is the maximum candidate distance, replaced by 1 when that maximum is
zero; the farthest candidate scores 0 whenever the maximum is nonzero; when
all candidates are equidistant at a nonzero common distance, every distance
score is 0 (not 1); and only when all candidates are at distance 0 does every
distance score equal 1. -/
theorem dist_score_amended (cands : List (Port × ℚ)) (hne : cands ≠ []) :
    (∀ cd ∈ cands, distScore cd.2 (dmaxAdj cands) = 1 - cd.2 / dmaxAdj cands)
    ∧ (∀ cd ∈ cands, cd.2 = dmaxRaw cands → dmaxRaw cands ≠ 0 →
        distScore cd.2 (dmaxAdj cands) = 0)
    ∧ (∀ d : ℚ, d ≠ 0 → (∀ cd ∈ cands, cd.2 = d) →
        ∀ cd ∈ cands, distScore cd.2 (dmaxAdj cands) = 0)
    ∧ ((∀ cd ∈ cands, cd.2 = 0) →
        ∀ cd ∈ cands, distScore cd.2 (dmaxAdj cands) = 1) := by
  refine ⟨fun cd _ => rfl, ?_, ?_, ?_⟩
  · intro cd _ hmax hnz
    unfold distScore dmaxAdj
    rw [if_neg hnz, hmax, div_self hnz]
    norm_num
  · intro d hd hall cd hcd
    have hmax : dmaxRaw cands = d := dmaxRaw_const d cands hne hall
    have hcd2 : cd.2 = d := hall cd hcd
    unfold distScore dmaxAdj
    rw [hmax, if_neg hd, hcd2, div_self hd]
    norm_num
  · intro hall cd hcd
    have hmax : dmaxRaw cands = 0 := dmaxRaw_const 0 cands hne hall
    have hcd2 : cd.2 = 0 := hall cd hcd
    unfold distScore dmaxAdj
    rw [hmax, if_pos rfl, hcd2]
    norm_num

/-- Witness for the amended C5: two equidistant candidates at 10 km each
score 0; a single candidate at distance 0 scores 1. -/
theorem dist_score_amended_witness :
    distScore 10 (dmaxAdj [(⟨"P", "", 0, 0⟩, 10), (⟨"Q", "", 1, 1⟩, 10)]) = 0
    ∧ distScore 0 (dmaxAdj [(⟨"P", "", 0, 0⟩, 0)]) = 1 := by
  constructor
  · exact (dist_score_amended [(⟨"P", "", 0, 0⟩, 10), (⟨"Q", "", 1, 1⟩, 10)]
      (by decide)).2.2.1 10 (by norm_num) (by decide)
      (⟨"P", "", 0, 0⟩, 10) (List.mem_cons_self _ _)
  · exact (dist_score_amended [(⟨"P", "", 0, 0⟩, 0)]
      (by decide)).2.2.2 (by decide) (⟨"P", "", 0, 0⟩, 0) (List.mem_cons_self _ _)

/-! ### C8: stops are chronological and non-overlapping -/

/-- An unparseable timestamp makes the scan step a no-op. -/
theorem stepStop_none (G : Geo) (ports : List Port) (near_km slow_kn min_dwell_min : ℚ)
    (st : List PortStop × Option Cand) (p : Pt) (h : p.ts.parse = none) :
    stepStop G ports near_km slow_kn min_dwell_min st p = st := by
  simp [stepStop, h]

/-- When no port is found, the point is far, or the point is fast, the scan
step finalizes the open candidate and clears it. -/
theorem stepStop_final (G : Geo) (ports : List Port) (near_km slow_kn min_dwell_min : ℚ)
    (st : List PortStop × Option Cand) (p : Pt) (t : ℤ) (ht : p.ts.parse = some t)
    (h : (nearest_port G ports p.lat p.lon).1 = none
      ∨ near_km < (nearest_port G ports p.lat p.lon).2
      ∨ slow_kn < p.speed.getD 0) :
    stepStop G ports near_km slow_kn min_dwell_min st p
      = (st.1 ++ (match st.2 with | some c => finalizeCand min_dwell_min c | none => []),
         none) := by
  simp only [stepStop, ht]
  cases hq : (nearest_port G ports p.lat p.lon).1 with
  | none => rfl
  | some q =>
    dsimp only
    rcases h with h | h | h
    · rw [hq] at h; exact Option.noConfusion h
    · rw [if_pos h]
    · by_cases hd : near_km < (nearest_port G ports p.lat p.lon).2
      · rw [if_pos hd]
      · rw [if_neg hd, if_pos h]

/-- On a slow near point the scan step extends the matching candidate or
replaces/opens one at the current port. -/
theorem stepStop_slow_near (G : Geo) (ports : List Port)
    (near_km slow_kn min_dwell_min : ℚ) (st : List PortStop × Option Cand) (p : Pt)
    (t : ℤ) (q : Port) (ht : p.ts.parse = some t)
    (hq : (nearest_port G ports p.lat p.lon).1 = some q)
    (hd : ¬(near_km < (nearest_port G ports p.lat p.lon).2))
    (hs : ¬(slow_kn < p.speed.getD 0)) :
    stepStop G ports near_km slow_kn min_dwell_min st p
      = match st.2 with
        | some c =>
          if c.port.name = q.name then
            (st.1,
             some { c with end_ts := t, min_dist_km := min c.min_dist_km (nearest_port G ports p.lat p.lon).2 })
          else (st.1, some ⟨q, t, t, (nearest_port G ports p.lat p.lon).2⟩)
        | none => (st.1, some ⟨q, t, t, (nearest_port G ports p.lat p.lon).2⟩) := by
  simp only [stepStop, ht, hq]
  rw [if_neg hd, if_neg hs]

/-- `ScanInv` survives dropping the head of the remaining points. -/
theorem scanInv_weaken (st : List PortStop × Option Cand) (p : Pt) (rest : List Pt)
    (h : ScanInv st (p :: rest)) : ScanInv st rest :=
  ⟨h.1, h.2.1, h.2.2.1, fun q hq => h.2.2.2 q (List.mem_cons_of_mem p hq)⟩

/-- Finalizing the open candidate preserves `ScanInv`. -/
theorem scanInv_finalize (min_dwell_min : ℚ) (st : List PortStop × Option Cand)
    (rem : List Pt) (h : ScanInv st rem) :
    ScanInv
      (st.1 ++ (match st.2 with | some c => finalizeCand min_dwell_min c | none => []),
       none) rem := by
  obtain ⟨h1, h2, h3, h4⟩ := h
  cases hc : st.2 with
  | none =>
    refine ⟨by simpa using h1, ?_, by simp, ?_⟩
    · intro s hs
      exact h2 s (by simpa using hs)
    · intro q hq t htq
      exact ⟨fun s hs => (h4 q hq t htq).1 s (by simpa using hs), by simp⟩
  | some c =>
    obtain ⟨hcse, hcst⟩ := h3 c hc
    simp only [finalizeCand]
    split
    · refine ⟨?_, ?_, by simp, ?_⟩
      · rw [List.chain'_append]
        refine ⟨h1, List.chain'_singleton _, ?_⟩
        intro x hx y hy
        simp only [List.head?_cons, Option.mem_def, Option.some.injEq] at hy
        rw [← hy]
        exact hcst x (List.mem_of_mem_getLast? hx)
      · intro s hs
        rcases List.mem_append.mp hs with hs | hs
        · exact h2 s hs
        · simp only [List.mem_singleton] at hs
          subst hs
          exact hcse
      · intro q hq t htq
        obtain ⟨ha, hb⟩ := h4 q hq t htq
        refine ⟨?_, by simp⟩
        intro s hs
        rcases List.mem_append.mp hs with hs | hs
        · exact ha s hs
        · simp only [List.mem_singleton] at hs
          subst hs
          exact hb c hc
    · refine ⟨by simpa using h1, ?_, by simp, ?_⟩
      · intro s hs
        exact h2 s (by simpa using hs)
      · intro q hq t htq
        exact ⟨fun s hs => (h4 q hq t htq).1 s (by simpa using hs), by simp⟩

/-- One scan step preserves `ScanInv` when the current point precedes all
remaining points. -/
theorem scanInv_step (G : Geo) (ports : List Port) (near_km slow_kn min_dwell_min : ℚ)
    (p : Pt) (rest : List Pt) (st : List PortStop × Option Cand)
    (hpair : ∀ q ∈ rest, tsLT p q)
    (hinv : ScanInv st (p :: rest)) :
    ScanInv (stepStop G ports near_km slow_kn min_dwell_min st p) rest := by
  obtain ⟨h1, h2, h3, h4⟩ := hinv
  cases hts : p.ts.parse with
  | none =>
    rw [stepStop_none G ports near_km slow_kn min_dwell_min st p hts]
    exact scanInv_weaken st p rest ⟨h1, h2, h3, h4⟩
  | some t =>
    have hpt := h4 p (List.mem_cons_self _ _) t hts
    cases hq : (nearest_port G ports p.lat p.lon).1 with
    | none =>
      rw [stepStop_final G ports near_km slow_kn min_dwell_min st p t hts (Or.inl hq)]
      exact scanInv_finalize min_dwell_min st rest (scanInv_weaken st p rest ⟨h1, h2, h3, h4⟩)
    | some q =>
      by_cases hd : near_km < (nearest_port G ports p.lat p.lon).2
      · rw [stepStop_final G ports near_km slow_kn min_dwell_min st p t hts
          (Or.inr (Or.inl hd))]
        exact scanInv_finalize min_dwell_min st rest
          (scanInv_weaken st p rest ⟨h1, h2, h3, h4⟩)
      · by_cases hsp : slow_kn < p.speed.getD 0
        · rw [stepStop_final G ports near_km slow_kn min_dwell_min st p t hts
            (Or.inr (Or.inr hsp))]
          exact scanInv_finalize min_dwell_min st rest
            (scanInv_weaken st p rest ⟨h1, h2, h3, h4⟩)
        · rw [stepStop_slow_near G ports near_km slow_kn min_dwell_min st p t q hts hq hd hsp]
          cases hc : st.2 with
          | none =>
            refine ⟨h1, h2, ?_, ?_⟩
            · intro c0 hc0
              cases Option.some_inj.mp hc0
              exact ⟨le_refl t, fun s hs => hpt.1 s hs⟩
            · intro q' hq' t' htq'
              refine ⟨(h4 q' (List.mem_cons_of_mem p hq') t' htq').1, ?_⟩
              intro c0 hc0
              cases Option.some_inj.mp hc0
              exact hpair q' hq' t t' hts htq'
          | some c =>
            dsimp only
            obtain ⟨hcse, hcst⟩ := h3 c hc
            by_cases hname : c.port.name = q.name
            · rw [if_pos hname]
              refine ⟨h1, h2, ?_, ?_⟩
              · intro c0 hc0
                cases Option.some_inj.mp hc0
                exact ⟨le_of_lt (lt_of_le_of_lt hcse (hpt.2 c hc)), hcst⟩
              · intro q' hq' t' htq'
                refine ⟨(h4 q' (List.mem_cons_of_mem p hq') t' htq').1, ?_⟩
                intro c0 hc0
                cases Option.some_inj.mp hc0
                exact hpair q' hq' t t' hts htq'
            · rw [if_neg hname]
              refine ⟨h1, h2, ?_, ?_⟩
              · intro c0 hc0
                cases Option.some_inj.mp hc0
                exact ⟨le_refl t, fun s hs => hpt.1 s hs⟩
              · intro q' hq' t' htq'
                refine ⟨(h4 q' (List.mem_cons_of_mem p hq') t' htq').1, ?_⟩
                intro c0 hc0
                cases Option.some_inj.mp hc0
                exact hpair q' hq' t t' hts htq'

/-- The scan emits a strictly chronological list of well-formed stops from
any state satisfying the invariant. -/
theorem scanStops_ordered (G : Geo) (ports : List Port)
    (near_km slow_kn min_dwell_min : ℚ) :
    ∀ (pts : List Pt) (st : List PortStop × Option Cand),
      pts.Pairwise tsLT → ScanInv st pts →
      List.Chain' (fun a b => a.departed_at < b.arrived_at)
        (scanStops G ports near_km slow_kn min_dwell_min st pts)
      ∧ ∀ s ∈ scanStops G ports near_km slow_kn min_dwell_min st pts,
          s.arrived_at ≤ s.departed_at := by
  intro pts
  induction pts with
  | nil =>
    intro st _ hinv
    have h := scanInv_finalize min_dwell_min st [] hinv
    exact ⟨h.1, h.2.1⟩
  | cons p rest ih =>
    intro st hpair hinv
    have hp := List.pairwise_cons.mp hpair
    exact ih (stepStop G ports near_km slow_kn min_dwell_min st p) hp.2
      (scanInv_step G ports near_km slow_kn min_dwell_min p rest st hp.1 hinv)

/-- `get_latest_trip` returns a sublist of its input. -/
theorem get_latest_trip_sublist (points : List Pt) :
    (get_latest_trip points).Sublist points := by
  unfold get_latest_trip
  cases points with
  | nil => exact List.Sublist.refl _
  | cons a l =>
    dsimp only
    split
    · exact List.Sublist.refl _
    · exact List.filter_sublist _

/-- C8: for every input ordered strictly by parsed timestamp, the stops
returned by `detect_port_stops` are in chronological order and their
`[arrived_at, departed_at]` intervals do not overlap: each stop departs
strictly before the next arrives, and each stop's arrival is no later than
its departure. -/
theorem detect_port_stops_ordered (G : Geo) (points : List Pt) (ports : List Port)
    (near_km slow_kn min_dwell_min : ℚ) (h : points.Pairwise tsLT) :
    List.Chain' (fun a b => a.departed_at < b.arrived_at)
      (detect_port_stops G points ports near_km slow_kn min_dwell_min)
    ∧ ∀ s ∈ detect_port_stops G points ports near_km slow_kn min_dwell_min,
        s.arrived_at ≤ s.departed_at := by
  unfold detect_port_stops
  split
  · exact ⟨List.chain'_nil, fun s hs => absurd hs (List.not_mem_nil s)⟩
  · refine scanStops_ordered G ports near_km slow_kn min_dwell_min
      (get_latest_trip points) ([], none)
      (h.sublist (get_latest_trip_sublist points)) ?_
    refine ⟨List.chain'_nil, fun s hs => absurd hs (List.not_mem_nil s), ?_, ?_⟩
    · intro c hc; exact Option.noConfusion hc
    · intro q hq t htq
      exact ⟨fun s hs => absurd hs (List.not_mem_nil s),
        fun c hc => Option.noConfusion hc⟩

/-- Witness for C8 on a one-point track near port "A". -/
theorem detect_port_stops_ordered_witness :
    List.Chain' (fun a b => a.departed_at < b.arrived_at)
      (detect_port_stops geoTaxi [⟨0, 0, .good 0, some 0, none, none⟩] portsC4 6 (6 / 5) 30)
    ∧ ∀ s ∈ detect_port_stops geoTaxi [⟨0, 0, .good 0, some 0, none, none⟩]
        portsC4 6 (6 / 5) 30, s.arrived_at ≤ s.departed_at :=
  detect_port_stops_ordered geoTaxi [⟨0, 0, .good 0, some 0, none, none⟩] portsC4
    6 (6 / 5) 30 (List.pairwise_singleton _ _)

/-! ### C7: heading dominates distance -/

/-- C7: with the last point at (25,-80), course 90, and exactly two candidate
ports — due east at 100 km (bearing 90) and due north at 50 km (bearing 0),
as `geoC7` encodes — `predict_next_port` selects the eastern port:
its combined score 0.65·1 + 0.35·0 = 0.65 beats the northern port's
0.65·0.5 + 0.35·0.5 = 0.5 despite the greater distance. -/
theorem predict_heading_dominates :
    predict_next_port geoC7 lastPointC7 portsC7
      = some ⟨"EAST", "", 25, -79, some 100, some 0, 13 / 20⟩ := by
  decide

/-! ### C10: `normalize_name` is idempotent -/

/-- `pyUpperChar` either fixes its argument or maps a lowercase letter to an
uppercase letter. -/
theorem up_image (c : Char) :
    pyUpperChar c = c ∨ (c ∈ lcChars ∧ pyUpperChar c ∈ ucChars) := by
  unfold pyUpperChar
  split <;> first | (left; rfl) | (right; decide)

/-- `pyUpperChar` fixes every uppercase letter. -/
theorem ucChars_fix : ∀ c ∈ ucChars, pyUpperChar c = c := by decide

/-- No uppercase letter is whitespace. -/
theorem ucChars_not_space : ∀ c ∈ ucChars, pyIsSpace c = false := by decide

/-- No lowercase letter is whitespace. -/
theorem lcChars_not_space : ∀ c ∈ lcChars, pyIsSpace c = false := by decide

/-- ASCII uppercasing is idempotent. -/
theorem up_idem (c : Char) : pyUpperChar (pyUpperChar c) = pyUpperChar c := by
  rcases up_image c with h | ⟨_, h⟩
  · rw [h]
    exact h
  · exact ucChars_fix _ h

/-- ASCII uppercasing preserves whitespace-ness. -/
theorem up_space (c : Char) : pyIsSpace (pyUpperChar c) = pyIsSpace c := by
  rcases up_image c with h | ⟨hl, hu⟩
  · rw [h]
  · rw [ucChars_not_space _ hu, lcChars_not_space _ hl]

/-- ASCII uppercasing never produces a NUL from a non-NUL character. -/
theorem up_nul (c : Char) (h : pyUpperChar c = '\x00') : c = '\x00' := by
  rcases up_image c with h0 | ⟨_, hu⟩
  · rw [h0] at h
    exact h
  · rw [h] at hu
    exact absurd hu (by decide)

/-- Every character of every chunk of `splitOnP P` comes from the input and
fails `P`. -/
theorem splitOnP_chunk_chars (P : Char → Bool) :
    ∀ (l : List Char) (t : List Char), t ∈ l.splitOnP P → ∀ c ∈ t, c ∈ l ∧ P c = false := by
  intro l
  induction l with
  | nil =>
    intro t ht c hc
    rw [List.splitOnP_nil] at ht
    simp only [List.mem_singleton] at ht
    subst ht
    exact absurd hc (List.not_mem_nil c)
  | cons a l ih =>
    intro t ht c hc
    rw [List.splitOnP_cons] at ht
    by_cases hp : P a
    · rw [if_pos hp] at ht
      rcases List.mem_cons.mp ht with ht | ht
      · subst ht; exact absurd hc (List.not_mem_nil c)
      · obtain ⟨h1, h2⟩ := ih t ht c hc
        exact ⟨List.mem_cons_of_mem a h1, h2⟩
    · rw [if_neg hp] at ht
      have hpf : P a = false := by revert hp; cases P a <;> simp
      cases hsp : l.splitOnP P with
      | nil => exact absurd hsp (List.splitOnP_ne_nil P l)
      | cons h0 rest =>
        rw [hsp, List.modifyHead_cons] at ht
        rcases List.mem_cons.mp ht with ht | ht
        · subst ht
          rcases List.mem_cons.mp hc with hc | hc
          · subst hc
            exact ⟨List.mem_cons_self _ _, hpf⟩
          · have hh0 : h0 ∈ l.splitOnP P := by rw [hsp]; exact List.mem_cons_self _ _
            obtain ⟨h1, h2⟩ := ih h0 hh0 c hc
            exact ⟨List.mem_cons_of_mem a h1, h2⟩
        · have htl : t ∈ l.splitOnP P := by rw [hsp]; exact List.mem_cons_of_mem h0 ht
          obtain ⟨h1, h2⟩ := ih t htl c hc
          exact ⟨List.mem_cons_of_mem a h1, h2⟩

/-- Splitting a whitespace-free nonempty token yields the token alone. -/
theorem pySplitWs_single (t : List Char) (h : ∀ c ∈ t, pyIsSpace c = false)
    (hne : t ≠ []) : pySplitWs t = [t] := by
  unfold pySplitWs
  rw [List.splitOnP_eq_single _ _ (fun x hx => by rw [h x hx]; exact Bool.false_ne_true)]
  have hfe : (!t.isEmpty) = true := by
    cases t with
    | nil => exact absurd rfl hne
    | cons a l => rfl
  simp [List.filter_cons, hfe]

/-- Splitting a token followed by a space and a remainder peels off the
token. -/
theorem pySplitWs_sep (t rest : List Char) (h : ∀ c ∈ t, pyIsSpace c = false)
    (hne : t ≠ []) : pySplitWs (t ++ ' ' :: rest) = t :: pySplitWs rest := by
  unfold pySplitWs
  rw [List.splitOnP_first _ _ (fun x hx => by rw [h x hx]; exact Bool.false_ne_true)
    ' ' (by decide) rest]
  have hfe : (!t.isEmpty) = true := by
    cases t with
    | nil => exact absurd rfl hne
    | cons a l => rfl
  simp [List.filter_cons, hfe]

/-- Splitting the space-joined image of nonempty whitespace-free tokens
recovers the tokens. -/
theorem pySplitWs_joinSp :
    ∀ (ts : List (List Char)),
      (∀ t ∈ ts, t ≠ [] ∧ ∀ c ∈ t, pyIsSpace c = false) →
      pySplitWs (joinSp ts) = ts := by
  intro ts
  induction ts with
  | nil => intro _; rfl
  | cons t ts ih =>
    intro h
    obtain ⟨hne, hsp⟩ := h t (List.mem_cons_self _ _)
    cases ts with
    | nil => exact pySplitWs_single t hsp hne
    | cons t2 ts2 =>
      rw [show joinSp (t :: t2 :: ts2) = t ++ ' ' :: joinSp (t2 :: ts2) from rfl]
      rw [pySplitWs_sep t _ hsp hne]
      rw [ih (fun u hu => h u (List.mem_cons_of_mem t hu))]

/-- Characters of a space-joined token list are spaces or token characters. -/
theorem mem_joinSp :
    ∀ (ts : List (List Char)) (c : Char), c ∈ joinSp ts →
      c = ' ' ∨ ∃ t ∈ ts, c ∈ t := by
  intro ts
  induction ts with
  | nil => intro c hc; exact absurd hc (List.not_mem_nil c)
  | cons t ts ih =>
    intro c hc
    cases ts with
    | nil => exact Or.inr ⟨t, List.mem_cons_self _ _, hc⟩
    | cons t2 ts2 =>
      rw [show joinSp (t :: t2 :: ts2) = t ++ ' ' :: joinSp (t2 :: ts2) from rfl] at hc
      rcases List.mem_append.mp hc with hc | hc
      · exact Or.inr ⟨t, List.mem_cons_self _ _, hc⟩
      · rcases List.mem_cons.mp hc with hc | hc
        · exact Or.inl hc
        · rcases ih c hc with hsp | ⟨t0, ht0, hct⟩
          · exact Or.inl hsp
          · exact Or.inr ⟨t0, List.mem_cons_of_mem _ ht0, hct⟩

/-- A map that fixes every element of a list fixes the list. -/
theorem map_eq_self_of (l : List Char) (f : Char → Char) (h : ∀ c ∈ l, f c = c) :
    l.map f = l :=
  (List.map_congr_left h).trans (List.map_id l)

/-- `dropWhile` is the identity when the head (if any) fails the predicate. -/
theorem dropWhile_eq_self_of (P : Char → Bool) (l : List Char)
    (h : ∀ c, l.head? = some c → P c = false) : l.dropWhile P = l := by
  cases l with
  | nil => rfl
  | cons a l => simp [List.dropWhile_cons, h a rfl]

/-- The head of a space-joined list of nonempty whitespace-free tokens is not
whitespace. -/
theorem joinSp_head_no_space (ts : List (List Char))
    (h : ∀ t ∈ ts, t ≠ [] ∧ ∀ c ∈ t, pyIsSpace c = false) :
    ∀ c, (joinSp ts).head? = some c → pyIsSpace c = false := by
  intro c hc
  cases ts with
  | nil => exact Option.noConfusion hc
  | cons t ts =>
    obtain ⟨hne, hsp⟩ := h t (List.mem_cons_self _ _)
    cases t with
    | nil => exact absurd rfl hne
    | cons a t' =>
      cases ts with
      | nil =>
        simp only [show joinSp [a :: t'] = a :: t' from rfl, List.head?_cons,
          Option.some_inj] at hc
        rw [← hc]
        exact hsp a (List.mem_cons_self _ _)
      | cons t2 ts2 =>
        rw [show joinSp ((a :: t') :: t2 :: ts2) = (a :: t') ++ ' ' :: joinSp (t2 :: ts2)
          from rfl, List.cons_append] at hc
        simp only [List.head?_cons, Option.some_inj] at hc
        rw [← hc]
        exact hsp a (List.mem_cons_self _ _)

/-- Appending one more token to a nonempty join appends a separator and the
token. -/
theorem joinSp_append_single :
    ∀ (xs : List (List Char)) (y : List Char), xs ≠ [] →
      joinSp (xs ++ [y]) = joinSp xs ++ ' ' :: y := by
  intro xs
  induction xs with
  | nil => intro y hy; exact absurd rfl hy
  | cons t ts ih =>
    intro y _
    cases ts with
    | nil => rfl
    | cons t2 ts2 =>
      rw [show joinSp ((t :: t2 :: ts2) ++ [y]) = t ++ ' ' :: joinSp ((t2 :: ts2) ++ [y])
        from rfl]
      rw [ih y (List.cons_ne_nil t2 ts2)]
      rw [show joinSp (t :: t2 :: ts2) = t ++ ' ' :: joinSp (t2 :: ts2) from rfl]
      simp [List.append_assoc]

/-- Reversing a space-join is the space-join of the reversed tokens in
reverse order. -/
theorem joinSp_reverse :
    ∀ (ts : List (List Char)),
      (joinSp ts).reverse = joinSp ((ts.map List.reverse).reverse) := by
  intro ts
  induction ts with
  | nil => rfl
  | cons t ts ih =>
    cases ts with
    | nil => rfl
    | cons t2 ts2 =>
      rw [show joinSp (t :: t2 :: ts2) = t ++ ' ' :: joinSp (t2 :: ts2) from rfl]
      rw [List.reverse_append, List.reverse_cons, ih]
      have hMne : (((t2 :: ts2).map List.reverse)).reverse ≠ [] := by simp
      rw [show ((t :: t2 :: ts2).map List.reverse).reverse
          = (((t2 :: ts2).map List.reverse)).reverse ++ [t.reverse] from by simp]
      rw [joinSp_append_single _ _ hMne]
      rw [List.append_assoc]
      rfl

/-- Stripping a space-join of nonempty whitespace-free tokens is the
identity. -/
theorem pyStrip_joinSp (ts : List (List Char))
    (h : ∀ t ∈ ts, t ≠ [] ∧ ∀ c ∈ t, pyIsSpace c = false) :
    pyStrip (joinSp ts) = joinSp ts := by
  have hrev : ∀ t ∈ (ts.map List.reverse).reverse, t ≠ [] ∧ ∀ c ∈ t, pyIsSpace c = false := by
    intro t ht
    rw [List.mem_reverse] at ht
    rcases List.mem_map.mp ht with ⟨u, hu, hut⟩
    obtain ⟨hne, hsp⟩ := h u hu
    subst hut
    constructor
    · simpa using hne
    · intro c hc
      exact hsp c (List.mem_reverse.mp hc)
  unfold pyStrip
  rw [dropWhile_eq_self_of pyIsSpace (joinSp ts) (joinSp_head_no_space ts h)]
  rw [joinSp_reverse]
  rw [dropWhile_eq_self_of pyIsSpace _ (joinSp_head_no_space _ hrev)]
  rw [← joinSp_reverse, List.reverse_reverse]

/-- NUL replacement fixes NUL-free strings. -/
theorem replaceNul_eq_self (l : List Char) (h : ∀ c ∈ l, c ≠ '\x00') :
    replaceNul l = l := by
  unfold replaceNul
  refine map_eq_self_of l _ (fun c hc => ?_)
  rw [if_neg (h c hc)]

/-- The output of NUL replacement is NUL-free. -/
theorem replaceNul_no_nul (l : List Char) : ∀ c ∈ replaceNul l, c ≠ '\x00' := by
  intro c hc
  unfold replaceNul at hc
  rcases List.mem_map.mp hc with ⟨a, _, hfa⟩
  by_cases hn : a = '\x00'
  · rw [hn] at hfa
    simp only [if_pos rfl] at hfa
    rw [← hfa]
    decide
  · rw [if_neg hn] at hfa
    rw [← hfa]
    exact hn

/-- Characters of the strip are characters of the input. -/
theorem mem_of_mem_pyStrip (l : List Char) (c : Char) (hc : c ∈ pyStrip l) : c ∈ l := by
  unfold pyStrip at hc
  rw [List.mem_reverse] at hc
  have h1 := (List.dropWhile_sublist (l := (l.dropWhile pyIsSpace).reverse) pyIsSpace).subset hc
  rw [List.mem_reverse] at h1
  exact (List.dropWhile_sublist pyIsSpace).subset h1

/-- Every token of the first normalization round is nonempty and consists of
non-whitespace, uppercase-fixed, non-NUL characters. -/
theorem normChars_tokens (l : List Char) :
    ∀ t ∈ pySplitWs ((pyStrip (replaceNul l)).map pyUpperChar),
      t ≠ [] ∧ ∀ c ∈ t, pyIsSpace c = false ∧ pyUpperChar c = c ∧ c ≠ '\x00' := by
  intro t ht
  constructor
  · have hfe := List.of_mem_filter ht
    intro h0
    rw [h0] at hfe
    exact Bool.noConfusion hfe
  · intro c hc
    have ht' : t ∈ ((pyStrip (replaceNul l)).map pyUpperChar).splitOnP pyIsSpace :=
      List.mem_of_mem_filter ht
    obtain ⟨hmem, hnsp⟩ := splitOnP_chunk_chars pyIsSpace _ t ht' c hc
    rcases List.mem_map.mp hmem with ⟨a, ha, hfa⟩
    have hanul : a ≠ '\x00' :=
      replaceNul_no_nul l a (mem_of_mem_pyStrip _ a ha)
    refine ⟨hnsp, ?_, ?_⟩
    · rw [← hfa]
      exact up_idem a
    · intro heq
      rw [← hfa] at heq
      exact hanul (up_nul a heq)

/-- Idempotence of the character-level normalization. -/
theorem normChars_idem (l : List Char) : normChars (normChars l) = normChars l := by
  have htok := normChars_tokens l
  have htok1 : ∀ t ∈ pySplitWs ((pyStrip (replaceNul l)).map pyUpperChar),
      t ≠ [] ∧ ∀ c ∈ t, pyIsSpace c = false :=
    fun t ht => ⟨(htok t ht).1, fun c hc => ((htok t ht).2 c hc).1⟩
  set ts := pySplitWs ((pyStrip (replaceNul l)).map pyUpperChar) with hts
  show normChars (joinSp ts) = joinSp ts
  have hnul : ∀ c ∈ joinSp ts, c ≠ '\x00' := by
    intro c hc
    rcases mem_joinSp ts c hc with hc | ⟨t, ht, hct⟩
    · rw [hc]; decide
    · exact ((htok t ht).2 c hct).2.2
  have hup : ∀ c ∈ joinSp ts, pyUpperChar c = c := by
    intro c hc
    rcases mem_joinSp ts c hc with hc | ⟨t, ht, hct⟩
    · rw [hc]; rfl
    · exact ((htok t ht).2 c hct).2.1
  unfold normChars
  rw [replaceNul_eq_self (joinSp ts) hnul]
  rw [pyStrip_joinSp ts htok1]
  rw [map_eq_self_of (joinSp ts) pyUpperChar hup]
  rw [pySplitWs_joinSp ts htok1]

/-- C10: `normalize_name` is idempotent — its output has no NUL bytes, no
leading or trailing whitespace, only uppercase-fixed characters, and single
spaces between tokens, so normalizing again changes nothing. -/
theorem normalize_name_idem (s : String) :
    normalize_name (normalize_name s) = normalize_name s := by
  unfold normalize_name
  exact congrArg String.mk (normChars_idem s.data)

end MainTheorems

end CT
